import Mathlib

/-!
Verification of the TalkV2 authentication / request-admission core.

The TypeScript sources are shallowly embedded: JS strings are modelled as
`List Char` (the code only manipulates ASCII meaningfully; `Char.toLower`
matches JS `toLowerCase` on ASCII), stateful handlers are modelled as pure
functions threading an explicit database / store value, and external
collaborators (bcrypt comparison, the zod e-mail format test) are abstract
boolean-valued parameters.
-/

/-- JS strings, modelled as lists of characters. -/
abbrev JSStr := List Char

/-- JS `hay.includes(needle)` (substring containment). -/
def jsIncludes (hay needle : JSStr) : Bool := decide (needle <:+: hay)

/-! ## `validatePasswordStrength` (src/lib/auth.ts) -/

/-- Result shape of `validatePasswordStrength`. -/
structure PasswordStrengthResult where
  isValid : Bool
  errors : List String
  deriving Repr, DecidableEq

def pwErrTooShort : String := "Password must be at least 8 characters long"
def pwErrTooLong : String := "Password must be less than 128 characters long"
def pwErrNoLower : String := "Password must contain at least one lowercase letter"
def pwErrNoUpper : String := "Password must contain at least one uppercase letter"
def pwErrNoDigit : String := "Password must contain at least one number"
def pwErrCommon : String := "Password is too common. Please choose a more secure password"

/-- The fixed block-list of common weak passwords from `validatePasswordStrength`. -/
def commonPasswords : List JSStr :=
  ["password".data, "123456".data, "123456789".data, "qwerty".data, "abc123".data,
   "password123".data, "admin".data, "letmein".data, "welcome".data, "monkey".data]

/-- `validatePasswordStrength` from src/lib/auth.ts.  Each `if … errors.push(…)`
of the source becomes one conditional singleton appended to the error list;
`/(?=.*[a-z])/.test(p)` is existence of a char in the class, and the block-list
test is `password.toLowerCase().includes(common)`. -/
def validatePasswordStrength (password : JSStr) : PasswordStrengthResult :=
  let errors : List String :=
    (if password.length < 8 then [pwErrTooShort] else []) ++
    (if password.length > 128 then [pwErrTooLong] else []) ++
    (if password.any (fun c => decide ('a' ≤ c ∧ c ≤ 'z')) then [] else [pwErrNoLower]) ++
    (if password.any (fun c => decide ('A' ≤ c ∧ c ≤ 'Z')) then [] else [pwErrNoUpper]) ++
    (if password.any (fun c => decide ('0' ≤ c ∧ c ≤ '9')) then [] else [pwErrNoDigit]) ++
    (if commonPasswords.any (fun common => jsIncludes (password.map Char.toLower) common)
       then [pwErrCommon] else [])
  { isValid := errors.length == 0, errors := errors }

theorem mem_if_singleton {α : Type _} (c : Prop) [Decidable c] (a b : α) :
    (a ∈ if c then [b] else []) ↔ (c ∧ a = b) := by
  split <;> simp_all

theorem mem_if_singleton_neg {α : Type _} (c : Prop) [Decidable c] (a b : α) :
    (a ∈ if c then [] else [b]) ↔ (¬ c ∧ a = b) := by
  split <;> simp_all

/-- C1: `validatePasswordStrength` evaluates every rule independently and
collects all violations without short-circuiting: each error message is present
exactly when its rule is violated (length < 8, length > 128, no lowercase, no
uppercase, no digit, block-listed case-insensitive substring), and `isValid`
holds iff the error list is empty. -/
theorem validatePasswordStrength_collects_all_violations (p : JSStr) :
    ((validatePasswordStrength p).isValid = true ↔ (validatePasswordStrength p).errors = []) ∧
    (pwErrTooShort ∈ (validatePasswordStrength p).errors ↔ p.length < 8) ∧
    (pwErrTooLong ∈ (validatePasswordStrength p).errors ↔ 128 < p.length) ∧
    (pwErrNoLower ∈ (validatePasswordStrength p).errors ↔ ¬ ∃ c ∈ p, 'a' ≤ c ∧ c ≤ 'z') ∧
    (pwErrNoUpper ∈ (validatePasswordStrength p).errors ↔ ¬ ∃ c ∈ p, 'A' ≤ c ∧ c ≤ 'Z') ∧
    (pwErrNoDigit ∈ (validatePasswordStrength p).errors ↔ ¬ ∃ c ∈ p, '0' ≤ c ∧ c ≤ '9') ∧
    (pwErrCommon ∈ (validatePasswordStrength p).errors ↔
      ∃ w ∈ commonPasswords, w <:+: p.map Char.toLower) := by
  have hd : pwErrTooShort ≠ pwErrTooLong ∧ pwErrTooShort ≠ pwErrNoLower ∧
      pwErrTooShort ≠ pwErrNoUpper ∧ pwErrTooShort ≠ pwErrNoDigit ∧
      pwErrTooShort ≠ pwErrCommon ∧ pwErrTooLong ≠ pwErrNoLower ∧
      pwErrTooLong ≠ pwErrNoUpper ∧ pwErrTooLong ≠ pwErrNoDigit ∧
      pwErrTooLong ≠ pwErrCommon ∧ pwErrNoLower ≠ pwErrNoUpper ∧
      pwErrNoLower ≠ pwErrNoDigit ∧ pwErrNoLower ≠ pwErrCommon ∧
      pwErrNoUpper ≠ pwErrNoDigit ∧ pwErrNoUpper ≠ pwErrCommon ∧
      pwErrNoDigit ≠ pwErrCommon := by
    repeat' constructor
    all_goals decide
  obtain ⟨h1, h2, h3, h4, h5, h6, h7, h8, h9, h10, h11, h12, h13, h14, h15⟩ := hd
  refine ⟨?_, ?_, ?_, ?_, ?_, ?_, ?_⟩ <;>
    simp [validatePasswordStrength, mem_if_singleton, mem_if_singleton_neg, jsIncludes,
      List.any_eq_true, h1, h2, h3, h4, h5, h6, h7, h8, h9, h10, h11, h12, h13, h14, h15,
      Ne.symm h1, Ne.symm h2, Ne.symm h3, Ne.symm h4, Ne.symm h5, Ne.symm h6, Ne.symm h7,
      Ne.symm h8, Ne.symm h9, Ne.symm h10, Ne.symm h11, Ne.symm h12, Ne.symm h13,
      Ne.symm h14, Ne.symm h15]

/-! ## `sanitizeInput` (src/lib/auth.ts)

`sanitizeInput` is `input.trim()`, then removal of `<script …>…</script>`
blocks, then removal of every remaining complete `<…>` tag, then
`substring(0, 1000)`.  The two JS regex replacements are embedded as the
scan functions `stripScript` and `stripTags`: a global replace of
`/<[^>]*>/g` deletes, from every `<` that is followed by some later `>`,
everything up to and including the first such `>`; the script regex deletes
from each `<script` (case-insensitive, word boundary after) through the
first following `</script>` (case-insensitive), skipping occurrences with
no close tag. -/

/-- The JS whitespace class used by `String.prototype.trim`. -/
def jsIsWs (c : Char) : Bool :=
  decide (c.toNat ∈ [9, 10, 11, 12, 13, 32, 160, 5760, 8192, 8193, 8194, 8195, 8196, 8197,
    8198, 8199, 8200, 8201, 8202, 8232, 8233, 8239, 8287, 12288, 65279])

/-- JS `input.trim()`. -/
def trimJS (s : JSStr) : JSStr :=
  ((s.dropWhile jsIsWs).reverse.dropWhile jsIsWs).reverse

/-- Drop everything up to and including the first `'>'`; `none` if there is none. -/
def dropThroughGt : JSStr → Option JSStr
  | [] => none
  | c :: cs => if c = '>' then some cs else dropThroughGt cs

theorem dropThroughGt_length : ∀ {cs rest : JSStr},
    dropThroughGt cs = some rest → rest.length < cs.length := by
  intro cs
  induction cs with
  | nil => intro rest h; simp [dropThroughGt] at h
  | cons c cs ih =>
    intro rest h
    simp only [dropThroughGt] at h
    split at h
    · cases h; simp
    · have := ih h; simp; omega

theorem dropThroughGt_eq_none : ∀ {cs : JSStr}, dropThroughGt cs = none ↔ '>' ∉ cs := by
  intro cs
  induction cs with
  | nil => simp [dropThroughGt]
  | cons c cs ih =>
    simp only [dropThroughGt, List.mem_cons]
    split
    · next h => subst h; simp
    · next h => simp [ih, Ne.symm h]

/-- The global replace of `/<[^>]*>/g` by the empty string. -/
def stripTags : JSStr → JSStr
  | [] => []
  | c :: cs =>
    if c = '<' then
      match _h : dropThroughGt cs with
      | some rest => stripTags rest
      | none => c :: cs
    else c :: stripTags cs
termination_by l => l.length
decreasing_by
  · have := dropThroughGt_length _h
    simp only [List.length_cons]
    omega
  · simp only [List.length_cons]
    omega

/-- Case-insensitive prefix test against an already-lowercase pattern
(JS regex literals under the `i` flag). -/
def startsWithCI : JSStr → JSStr → Bool
  | [], _ => true
  | _ :: _, [] => false
  | p :: ps, c :: cs => (Char.toLower c == p) && startsWithCI ps cs

/-- `<script\b` matched just after a `'<'`: the literal `script`
(case-insensitive) with a word boundary after it. -/
def scriptTagAfterLt (cs : JSStr) : Bool :=
  startsWithCI ("script".data) cs &&
    (match cs.drop 6 with
     | [] => true
     | d :: _ => !(d.isAlphanum || d == '_'))

/-- Scan for the first case-insensitive `</script>`; return the suffix after it. -/
def findCloseScript : JSStr → Option JSStr
  | [] => none
  | c :: cs =>
    if startsWithCI ("</script>".data) (c :: cs) then some ((c :: cs).drop 9)
    else findCloseScript cs

theorem findCloseScript_length : ∀ {l rest : JSStr},
    findCloseScript l = some rest → rest.length < l.length := by
  intro l
  induction l with
  | nil => intro rest h; simp [findCloseScript] at h
  | cons c cs ih =>
    intro rest h
    simp only [findCloseScript] at h
    split at h
    · cases h; simp; omega
    · have := ih h; simp; omega

/-- The global replace of the script-block regex by the empty string. -/
def stripScript : JSStr → JSStr
  | [] => []
  | c :: cs =>
    if c = '<' && scriptTagAfterLt cs then
      match _h : findCloseScript (cs.drop 6) with
      | some rest => stripScript rest
      | none => c :: stripScript cs
    else c :: stripScript cs
termination_by l => l.length
decreasing_by
  · have h1 := findCloseScript_length _h
    have h2 : (cs.drop 6).length ≤ cs.length := by
      simp only [List.length_drop]; omega
    simp only [List.length_cons]
    omega
  · simp only [List.length_cons]; omega
  · simp only [List.length_cons]; omega

/-- `sanitizeInput` from src/lib/auth.ts. -/
def sanitizeInput (input : JSStr) : JSStr :=
  (stripTags (stripScript (trimJS input))).take 1000

/-! ### Tag-freeness invariant for `sanitizeInput` -/

/-- A string is tag-free when no `'<'` is followed (anywhere later) by a `'>'`:
equivalently it splits into a `'<'`-free part followed by a `'>'`-free part.
Neither tag-removal regex can match inside such a string. -/
def NoTag (l : JSStr) : Prop := ∃ a b, l = a ++ b ∧ '<' ∉ a ∧ '>' ∉ b

theorem noTag_nil : NoTag [] := ⟨[], [], rfl, by simp, by simp⟩

theorem noTag_of_no_gt {l : JSStr} (h : '>' ∉ l) : NoTag l :=
  ⟨[], l, rfl, by simp, h⟩

theorem noTag_cons {c : Char} {l : JSStr} (hc : c ≠ '<') (h : NoTag l) : NoTag (c :: l) := by
  obtain ⟨a, b, rfl, ha, hb⟩ := h
  exact ⟨c :: a, b, rfl, by simp only [List.mem_cons, not_or]; exact ⟨fun hx => hc hx.symm, ha⟩, hb⟩

theorem noTag_tail {c : Char} {l : JSStr} (h : NoTag (c :: l)) : NoTag l := by
  obtain ⟨a, b, heq, ha, hb⟩ := h
  cases a with
  | nil =>
    refine ⟨[], l, by simp, by simp, fun hm => hb ?_⟩
    simp at heq
    rw [← heq]
    exact List.mem_cons_of_mem _ hm
  | cons a0 a' =>
    simp only [List.cons_append, List.cons.injEq] at heq
    exact ⟨a', b, heq.2, fun hm => ha (List.mem_cons_of_mem _ hm), hb⟩

theorem noTag_head_lt {l : JSStr} (h : NoTag ('<' :: l)) : '>' ∉ ('<' :: l) := by
  obtain ⟨a, b, heq, ha, hb⟩ := h
  cases a with
  | nil => simp at heq; rw [heq]; exact hb
  | cons a0 a' =>
    simp only [List.cons_append, List.cons.injEq] at heq
    exact absurd (heq.1 ▸ List.mem_cons_self a0 a') ha

theorem noTag_suffixClosed {l' l : JSStr} (hs : l' <:+ l) (h : NoTag l) : NoTag l' := by
  obtain ⟨a, b, rfl, ha, hb⟩ := h
  obtain ⟨t, ht⟩ := hs
  rcases List.append_eq_append_iff.mp ht with ⟨a', rfl, h2⟩ | ⟨c', rfl, h2⟩
  · exact ⟨a', b, h2, fun hm => ha (List.mem_append_right _ hm), hb⟩
  · exact ⟨[], l', by simp, by simp, fun hm => hb (h2 ▸ List.mem_append_right _ hm)⟩

theorem noTag_prefixClosed {l' l : JSStr} (hp : l' <+: l) (h : NoTag l) : NoTag l' := by
  obtain ⟨a, b, rfl, ha, hb⟩ := h
  obtain ⟨t, ht⟩ := hp
  rcases List.append_eq_append_iff.mp ht.symm with ⟨a', h1, h2⟩ | ⟨c', h1, h2⟩
  · exact ⟨a, a', h1, ha, fun hm => hb (h2 ▸ List.mem_append_left _ hm)⟩
  · exact ⟨l', [], by simp, fun hm => ha (h1 ▸ List.mem_append_left _ hm), by simp⟩

theorem stripTags_noTag (l : JSStr) : NoTag (stripTags l) := by
  induction l using stripTags.induct with
  | case1 => simpa [stripTags] using noTag_nil
  | case2 cs rest hdrop ih =>
    rw [stripTags, if_pos rfl, hdrop]
    exact ih
  | case3 cs hdrop =>
    rw [stripTags, if_pos rfl, hdrop]
    refine noTag_of_no_gt ?_
    have := dropThroughGt_eq_none.mp hdrop
    simp [this]
  | case4 c cs hc ih =>
    rw [stripTags, if_neg hc]
    exact noTag_cons hc ih

theorem stripTags_eq_self {l : JSStr} (h : NoTag l) : stripTags l = l := by
  induction l with
  | nil => simp [stripTags]
  | cons c cs ih =>
    by_cases hc : c = '<'
    · subst hc
      have h1 : '>' ∉ cs := fun hm => noTag_head_lt h (List.mem_cons_of_mem _ hm)
      rw [stripTags, if_pos rfl, dropThroughGt_eq_none.mpr h1]
    · rw [stripTags, if_neg hc, ih (noTag_tail h)]

theorem startsWithCI_exists : ∀ {pat l : JSStr}, startsWithCI pat l = true →
    ∀ p ∈ pat, ∃ c ∈ l, Char.toLower c = p := by
  intro pat
  induction pat with
  | nil => intro l _ p hp; simp at hp
  | cons p0 ps ih =>
    intro l h p hp
    cases l with
    | nil => simp [startsWithCI] at h
    | cons c cs =>
      simp only [startsWithCI, Bool.and_eq_true, beq_iff_eq] at h
      rcases List.mem_cons.mp hp with rfl | hp'
      · exact ⟨c, List.mem_cons_self _ _, h.1⟩
      · obtain ⟨c', hc', hcl⟩ := ih h.2 p hp'
        exact ⟨c', List.mem_cons_of_mem _ hc', hcl⟩

theorem toLower_eq_gtChar {c : Char} (h : Char.toLower c = '>') : c = '>' := by
  have h' : (if c.toNat ≥ 65 ∧ c.toNat ≤ 90 then Char.ofNat (c.toNat + 32) else c) = '>' := h
  clear h
  rename' h' => h
  split at h
  · next hcond =>
    exfalso
    obtain ⟨h1, h2⟩ := hcond
    set n := c.toNat with hn
    interval_cases n <;> exact absurd h (by decide)
  · exact h

theorem findCloseScript_none {l : JSStr} (h : '>' ∉ l) : findCloseScript l = none := by
  induction l with
  | nil => simp [findCloseScript]
  | cons c cs ih =>
    have hnotstart : startsWithCI ("</script>".data) (c :: cs) = false := by
      by_contra hb
      have hb' : startsWithCI ("</script>".data) (c :: cs) = true := by
        revert hb; cases startsWithCI ("</script>".data) (c :: cs) <;> simp
      obtain ⟨c', hc', hcl⟩ := startsWithCI_exists hb' '>' (by decide)
      exact h (toLower_eq_gtChar hcl ▸ hc')
    rw [findCloseScript, if_neg (by simp [hnotstart])]
    exact ih fun hm => h (List.mem_cons_of_mem _ hm)

theorem stripScript_eq_self {l : JSStr} (h : NoTag l) : stripScript l = l := by
  induction l with
  | nil => simp [stripScript]
  | cons c cs ih =>
    by_cases hc : (c = '<' && scriptTagAfterLt cs) = true
    · have hlt : c = '<' := by
        simp only [Bool.and_eq_true, decide_eq_true_eq] at hc
        exact hc.1
      subst hlt
      have h1 : '>' ∉ cs := fun hm => noTag_head_lt h (List.mem_cons_of_mem _ hm)
      have h2 : '>' ∉ cs.drop 6 := fun hm => h1 (List.drop_subset _ _ hm)
      rw [stripScript, if_pos hc, findCloseScript_none h2, ih (noTag_tail h)]
    · rw [stripScript, if_neg hc, ih (noTag_tail h)]

theorem trimJS_prefix_dropWhile (l : JSStr) : trimJS l <+: l.dropWhile jsIsWs := by
  have h : (l.dropWhile jsIsWs).reverse.dropWhile jsIsWs <:+ (l.dropWhile jsIsWs).reverse :=
    List.dropWhile_suffix _
  have h2 := List.reverse_prefix.mpr h
  simpa [trimJS] using h2

theorem noTag_trimJS {l : JSStr} (h : NoTag l) : NoTag (trimJS l) :=
  noTag_prefixClosed (trimJS_prefix_dropWhile l) (noTag_suffixClosed (List.dropWhile_suffix _) h)

theorem trimJS_length_le (l : JSStr) : (trimJS l).length ≤ l.length :=
  le_trans (trimJS_prefix_dropWhile l).length_le (List.dropWhile_suffix _).length_le

/-- C5 counterexample: `sanitizeInput` is not idempotent.  Stripping the tag in
`"<b> a"` exposes a leading space that the (already performed) trim never saw;
a second pass removes it. -/
theorem sanitizeInput_not_idempotent_cex :
    sanitizeInput (sanitizeInput ("<b> a".data)) ≠ sanitizeInput ("<b> a".data) ∧
    sanitizeInput ("<b> a".data) = " a".data ∧
    sanitizeInput (sanitizeInput ("<b> a".data)) = "a".data := by
  have h1 : sanitizeInput ("<b> a".data) = " a".data := by
    simp [sanitizeInput, trimJS, stripScript, stripTags, dropThroughGt, findCloseScript,
      scriptTagAfterLt, startsWithCI, jsIsWs, List.dropWhile, Char.toLower]
  have h2 : sanitizeInput (" a".data) = "a".data := by
    simp [sanitizeInput, trimJS, stripScript, stripTags, dropThroughGt, findCloseScript,
      scriptTagAfterLt, startsWithCI, jsIsWs, List.dropWhile, Char.toLower]
  refine ⟨?_, h1, by rw [h1]; exact h2⟩
  rw [h1, h2]
  decide

/-- C5 (amended): the output of `sanitizeInput` is at most 1000 characters, and
a second application reduces to a plain trim of the first output —
`sanitizeInput (sanitizeInput x) = trimJS (sanitizeInput x)` — so idempotence
holds exactly on inputs whose sanitized form carries no leading or trailing
whitespace (tag stripping can expose such whitespace, breaking idempotence in
general). -/
theorem sanitizeInput_length_le_and_double_eq_trim (x : JSStr) :
    (sanitizeInput x).length ≤ 1000 ∧
    sanitizeInput (sanitizeInput x) = trimJS (sanitizeInput x) := by
  constructor
  · unfold sanitizeInput
    simp [List.length_take]
  · have hy : NoTag (sanitizeInput x) :=
      noTag_prefixClosed (List.take_prefix _ _) (stripTags_noTag _)
    have hty : NoTag (trimJS (sanitizeInput x)) := noTag_trimJS hy
    have hlen : (trimJS (sanitizeInput x)).length ≤ 1000 := by
      refine le_trans (trimJS_length_le _) ?_
      unfold sanitizeInput
      simp [List.length_take]
    unfold sanitizeInput
    rw [stripScript_eq_self (by exact noTag_trimJS (noTag_prefixClosed (List.take_prefix _ _) (stripTags_noTag _))),
      stripTags_eq_self (by exact noTag_trimJS (noTag_prefixClosed (List.take_prefix _ _) (stripTags_noTag _)))]
    exact List.take_of_length_le (by simpa [sanitizeInput] using hlen)

/-! ## `sanitizeJson` (security middleware, src/unnamed/part_004)

JS values reaching `sanitizeJson` (JSON-decoded request payloads) are
embedded as `JsVal`.  Property access `input.k` resolves through the
prototype chain: every object produced by `JSON.parse` has
`Object.prototype` as its prototype (arrays have `Array.prototype`), so
`input.__proto__` yields that prototype object and `input.constructor` the
inherited `Object`/`Array` function — both truthy — unless an own data
property of the same name shadows them (`JSON.parse` creates such an own
property for an `__proto__` key); no `prototype` property is inherited.
`inheritedTruthy` records the truthiness of those inherited values. -/

inductive JsVal where
  | null
  | bool (b : Bool)
  | num (n : Int)
  | str (s : JSStr)
  | arr (xs : List JsVal)
  | obj (fields : List (String × JsVal))
  deriving Repr

/-- JS truthiness. -/
def jsTruthy : JsVal → Bool
  | .null => false
  | .bool b => b
  | .num n => n != 0
  | .str s => !s.isEmpty
  | .arr _ => true
  | .obj _ => true

/-- Own-field lookup (first binding wins, as in a JS object literal). -/
def getOwn (fields : List (String × JsVal)) (k : String) : Option JsVal :=
  (fields.find? (fun f => f.1 == k)).map (fun f => f.2)

/-- Truthiness of what `input.k` resolves to when no own property named `k`
shadows the prototype chain of an ordinary JSON-derived object or array:
`__proto__` yields the (truthy) prototype object and `constructor` the
(truthy) inherited constructor function, while no `prototype` property is
inherited (the access yields `undefined`, falsy). -/
def inheritedTruthy (k : String) : Bool :=
  k == "__proto__" || k == "constructor"

/-- Truthiness of the property access `input.k`: an own property shadows the
prototype chain, otherwise the inherited value decides. -/
def truthyProp (fields : List (String × JsVal)) (k : String) : Bool :=
  match getOwn fields k with
  | some v => jsTruthy v
  | none => inheritedTruthy k

/-- `input.__proto__ || input.constructor || input.prototype`. -/
def protoTrigger (fields : List (String × JsVal)) : Bool :=
  truthyProp fields ("__proto__") || truthyProp fields ("constructor") ||
    truthyProp fields ("prototype")

mutual
/-- `sanitizeJson` from src/unnamed/part_004.  Non-objects (and `null`) pass
through.  The trigger check runs before the `Array.isArray` branch: an array
owns no string-keyed fields, so its inherited `__proto__` and `constructor`
are truthy (`protoTrigger [] = true`) and every array collapses to the empty
plain object.  An object likewise collapses unless own falsy `__proto__` and
`constructor` properties shadow the chain and no truthy own `prototype`
exists; only then is it rebuilt from its own fields whose key is none of the
three banned names, recursing into object-typed values and copying the rest
(copying a non-object equals recursing into it, since non-objects pass
through). -/
def sanitizeJson : JsVal → JsVal
  | .null => .null
  | .bool b => .bool b
  | .num n => .num n
  | .str s => .str s
  | .arr _ => .obj []
  | .obj fields =>
    if protoTrigger fields then .obj []
    else .obj (sanitizeJsonFields fields)

def sanitizeJsonFields : List (String × JsVal) → List (String × JsVal)
  | [] => []
  | (k, v) :: fs =>
    if k ≠ "__proto__" ∧ k ≠ "constructor" ∧ k ≠ "prototype" then
      (k, sanitizeJson v) :: sanitizeJsonFields fs
    else sanitizeJsonFields fs
end

/-- An array's trigger: no own string-keyed fields, so the inherited
`__proto__` is truthy and the check fires. -/
theorem protoTrigger_nil : protoTrigger [] = true := rfl

theorem sanitizeJsonFields_eq_filter_map (fs : List (String × JsVal)) :
    sanitizeJsonFields fs =
      (fs.filter (fun f =>
        f.1 ∉ (["__proto__", "constructor", "prototype"] : List String))).map
        (fun f => (f.1, sanitizeJson f.2)) := by
  induction fs with
  | nil => simp [sanitizeJsonFields]
  | cons f fs ih =>
    obtain ⟨k, v⟩ := f
    by_cases hk : k ≠ "__proto__" ∧ k ≠ "constructor" ∧ k ≠ "prototype"
    · rw [sanitizeJsonFields, if_pos hk, ih, List.filter_cons, if_pos (by simp [hk.1, hk.2.1, hk.2.2]),
        List.map_cons]
    · rw [sanitizeJsonFields, if_neg hk, ih, List.filter_cons, if_neg (by simpa using hk)]

/-- C4 counterexample: the claim says `sanitizeJson` returns the empty
mapping *exactly when* the object itself carries `__proto__`, `constructor`
or `prototype` as an own property, and otherwise preserves every non-banned
key.  But property access resolves through the prototype chain: `{a: 1}`
owns none of the banned keys, yet its inherited `__proto__` and
`constructor` are truthy, so the source empties it instead of returning it
intact. -/
theorem sanitizeJson_inherited_trigger_cex :
    getOwn [(("a" : String), JsVal.num 1)] ("__proto__") = Option.none ∧
    getOwn [(("a" : String), JsVal.num 1)] ("constructor") = Option.none ∧
    getOwn [(("a" : String), JsVal.num 1)] ("prototype") = Option.none ∧
    sanitizeJson (.obj [(("a" : String), JsVal.num 1)]) = .obj [] ∧
    JsVal.obj [] ≠ .obj [(("a" : String), JsVal.num 1)] := by
  refine ⟨rfl, rfl, rfl, ?_, by simp⟩
  rw [sanitizeJson, if_pos (by decide)]

/-- C4 (amended): `sanitizeJson` passes non-objects (including `null`)
through unchanged.  Because `input.__proto__` and `input.constructor`
resolve through the prototype chain and are truthy for every ordinary
JSON-derived object and array, every array and almost every object
collapses to the empty mapping: an object survives exactly when own falsy
`__proto__` and `constructor` properties shadow the chain and any own
`prototype` property is falsy, and is then rebuilt with the three banned
keys dropped and every remaining value recursively sanitized. -/
theorem sanitizeJson_characterization (b : Bool) (n : Int) (s : JSStr)
    (xs : List JsVal) (fs : List (String × JsVal)) :
    sanitizeJson .null = .null ∧
    sanitizeJson (.bool b) = .bool b ∧
    sanitizeJson (.num n) = .num n ∧
    sanitizeJson (.str s) = .str s ∧
    sanitizeJson (.arr xs) = .obj [] ∧
    (protoTrigger fs = false ↔
      (∃ v, getOwn fs ("__proto__") = some v ∧ jsTruthy v = false) ∧
      (∃ v, getOwn fs ("constructor") = some v ∧ jsTruthy v = false) ∧
      (∀ v, getOwn fs ("prototype") = some v → jsTruthy v = false)) ∧
    (protoTrigger fs = true → sanitizeJson (.obj fs) = .obj []) ∧
    (protoTrigger fs = false →
      sanitizeJson (.obj fs) = .obj ((fs.filter (fun f =>
        f.1 ∉ (["__proto__", "constructor", "prototype"] : List String))).map
        (fun f => (f.1, sanitizeJson f.2)))) := by
  refine ⟨by rw [sanitizeJson], by rw [sanitizeJson], by rw [sanitizeJson],
    by rw [sanitizeJson], by rw [sanitizeJson], ?_, ?_, ?_⟩
  · unfold protoTrigger truthyProp
    cases h1 : getOwn fs ("__proto__") <;> cases h2 : getOwn fs ("constructor") <;>
      cases h3 : getOwn fs ("prototype") <;>
        simp [inheritedTruthy, h1, h2, h3, and_assoc]
  · intro h; rw [sanitizeJson, if_pos h]
  · intro h; rw [sanitizeJson, if_neg (by simp [h]), sanitizeJsonFields_eq_filter_map]

/-- Closed instance of `sanitizeJson_characterization`, hypotheses discharged
at a concrete object whose own falsy `__proto__` and `constructor` shadow
the chain. -/
theorem sanitizeJson_characterization_witness :
    sanitizeJson (.obj [(("__proto__" : String), JsVal.bool false),
      (("constructor" : String), JsVal.num 0), (("x" : String), JsVal.num 2)]) =
      .obj [(("x" : String), JsVal.num 2)] := by
  have h := (sanitizeJson_characterization true 0 [] []
    [(("__proto__" : String), JsVal.bool false), (("constructor" : String), JsVal.num 0),
     (("x" : String), JsVal.num 2)]).2.2.2.2.2.2.2 (by decide)
  rw [h]
  simp [sanitizeJson]
/-! ## `rateLimit` (src/unnamed/part_004)

The rate limiter keeps a key → `{count, resetTime, windowMs}` map.  Times are
milliseconds-since-epoch naturals; one call of the returned middleware is the
pure step `rateLimitStep`, threading the store.  The mutation
`entry.count++` together with the `rateLimitStore.set` aliasing is modelled
by storing the incremented entry under the key; the final
`cleanupExpiredEntries()` sweep filters out entries whose `resetTime` has
passed. -/

structure RateLimitConfig where
  windowMs : Nat
  maxRequests : Nat
  skipSuccessfulRequests : Bool := false
  skipFailedRequests : Bool := false
  deriving Repr, DecidableEq

structure RLEntry where
  count : Nat
  resetTime : Nat
  windowMs : Nat
  deriving Repr, DecidableEq

structure RateLimitResult where
  success : Bool
  limit : Nat
  remaining : Nat
  resetTime : Nat
  deriving Repr, DecidableEq

/-- The in-memory `rateLimitStore` map. -/
abbrev RLStore := List (String × RLEntry)

def storeGet (s : RLStore) (k : String) : Option RLEntry :=
  (s.find? (fun e => e.1 == k)).map (fun e => e.2)

def storeSet : RLStore → String → RLEntry → RLStore
  | [], k, v => [(k, v)]
  | (k', v') :: rest, k, v =>
    if k' == k then (k, v) :: rest else (k', v') :: storeSet rest k v

/-- Whether this request is counted: the response status is a 2xx and
successful requests are not skipped, or a 4xx/5xx and failed requests are
not skipped. -/
def shouldCount (config : RateLimitConfig) (statusCode : Nat) : Bool :=
  (decide (200 ≤ statusCode) && decide (statusCode < 300) && !config.skipSuccessfulRequests) ||
  (decide (400 ≤ statusCode) && !config.skipFailedRequests)

/-- `let entry = store.get(key); if (!entry || now > entry.resetTime) { fresh }`. -/
def getOrResetEntry (config : RateLimitConfig) (store : RLStore) (key : String)
    (now : Nat) : RLEntry :=
  match storeGet store key with
  | some e => if now > e.resetTime then
      { count := 0, resetTime := now + config.windowMs, windowMs := config.windowMs }
    else e
  | none => { count := 0, resetTime := now + config.windowMs, windowMs := config.windowMs }

/-- `cleanupExpiredEntries`. -/
def cleanupExpired (now : Nat) (s : RLStore) : RLStore :=
  s.filter (fun e => !decide (now > e.2.resetTime))

/-- One call of the middleware returned by `rateLimit(config)` for a fixed
key, response status and time: produces the `RateLimitResult` and the new
store.  `remaining = Math.max(0, maxRequests - count)` is natural
subtraction; `success = count <= maxRequests`. -/
def rateLimitStep (config : RateLimitConfig) (statusCode : Nat) (now : Nat)
    (key : String) (store : RLStore) : RateLimitResult × RLStore :=
  let e0 := getOrResetEntry config store key now
  let e1 := if shouldCount config statusCode then { e0 with count := e0.count + 1 } else e0
  let store1 := storeSet store key e1
  let remaining := config.maxRequests - e1.count
  let success := decide (e1.count ≤ config.maxRequests)
  ({ success := success, limit := config.maxRequests, remaining := remaining,
     resetTime := e1.resetTime }, cleanupExpired now store1)

/-- Iterated checks at a constant instant (all inside one window). -/
def rateLimitIter (config : RateLimitConfig) (statusCode : Nat) (now : Nat)
    (key : String) : Nat → RLStore → RLStore
  | 0, s => s
  | n + 1, s => rateLimitIter config statusCode now key n
      (rateLimitStep config statusCode now key s).2

theorem storeGet_storeSet_self (s : RLStore) (k : String) (v : RLEntry) :
    storeGet (storeSet s k v) k = some v := by
  induction s with
  | nil => simp [storeSet, storeGet]
  | cons e rest ih =>
    obtain ⟨k', v'⟩ := e
    by_cases h : k' = k
    · subst h
      simp [storeSet, storeGet]
    · rw [storeSet, if_neg (by simp [h])]
      unfold storeGet at ih ⊢
      rw [List.find?_cons_of_neg _ (by simp [h])]
      exact ih

theorem storeGet_cleanupExpired (now : Nat) (s : RLStore) (k : String) {v : RLEntry}
    (hv : storeGet s k = some v) (hkeep : ¬ now > v.resetTime) :
    storeGet (cleanupExpired now s) k = some v := by
  induction s with
  | nil => simp [storeGet] at hv
  | cons e rest ih =>
    obtain ⟨k', v'⟩ := e
    by_cases h : k' = k
    · subst h
      have hv' : v' = v := by
        unfold storeGet at hv
        rw [List.find?_cons_of_pos _ (by simp)] at hv
        simpa using hv
      subst hv'
      unfold cleanupExpired
      rw [List.filter_cons, if_pos (by simpa using hkeep)]
      unfold storeGet
      rw [List.find?_cons_of_pos _ (by simp)]
      rfl
    · have hv' : storeGet rest k = some v := by
        unfold storeGet at hv ⊢
        rwa [List.find?_cons_of_neg _ (by simp [h])] at hv
      have hrest := ih hv'
      unfold cleanupExpired at hrest ⊢
      rw [List.filter_cons]
      split
      · unfold storeGet at hrest ⊢
        rw [List.find?_cons_of_neg _ (by simp [h])]
        exact hrest
      · exact hrest

theorem getOrResetEntry_of_get {config : RateLimitConfig} {store : RLStore} {key : String}
    {now : Nat} {e : RLEntry} (h : storeGet store key = some e)
    (hfresh : ¬ now > e.resetTime) : getOrResetEntry config store key now = e := by
  unfold getOrResetEntry
  rw [h]
  simp [hfresh]

theorem rateLimitStep_count {config : RateLimitConfig} {statusCode now : Nat} {key : String}
    {s : RLStore} {m : Nat} (hcount : shouldCount config statusCode = true)
    (hs : storeGet s key = some ⟨m, now + config.windowMs, config.windowMs⟩) :
    storeGet (rateLimitStep config statusCode now key s).2 key =
      some ⟨m + 1, now + config.windowMs, config.windowMs⟩ := by
  have he0 : getOrResetEntry config s key now = ⟨m, now + config.windowMs, config.windowMs⟩ :=
    getOrResetEntry_of_get hs (by show ¬ now > now + config.windowMs; omega)
  simp only [rateLimitStep, he0, hcount, if_true]
  exact storeGet_cleanupExpired now _ key (storeGet_storeSet_self s key _) (by simp)

theorem rateLimitStep_first {config : RateLimitConfig} {statusCode now : Nat} {key : String}
    (hcount : shouldCount config statusCode = true) :
    storeGet (rateLimitStep config statusCode now key []).2 key =
      some ⟨1, now + config.windowMs, config.windowMs⟩ := by
  have he0 : getOrResetEntry config [] key now = ⟨0, now + config.windowMs, config.windowMs⟩ := by
    unfold getOrResetEntry
    simp [storeGet]
  simp only [rateLimitStep, he0, hcount, if_true]
  exact storeGet_cleanupExpired now _ key (storeGet_storeSet_self [] key _) (by simp)

/-- Invariant: with counting on and a constant instant, after `n ≥ 1` checks
from the empty store the key holds count `n` with an unexpired fresh window. -/
theorem rateLimitIter_entry (config : RateLimitConfig) (statusCode now : Nat)
    (key : String) (hcount : shouldCount config statusCode = true) :
    ∀ n : Nat, n ≥ 1 →
      storeGet (rateLimitIter config statusCode now key n []) key =
        some ⟨n, now + config.windowMs, config.windowMs⟩ := by
  have hgen : ∀ (n : Nat) (s : RLStore) (m : Nat),
      storeGet s key = some ⟨m, now + config.windowMs, config.windowMs⟩ →
      storeGet (rateLimitIter config statusCode now key n s) key =
        some ⟨m + n, now + config.windowMs, config.windowMs⟩ := by
    intro n
    induction n with
    | zero => intro s m hs; simpa [rateLimitIter] using hs
    | succ n ih =>
      intro s m hs
      have h2 := ih _ (m + 1) (rateLimitStep_count hcount hs)
      rw [show m + 1 + n = m + (n + 1) by omega] at h2
      exact h2
  intro n hn
  obtain ⟨k, rfl⟩ : ∃ k, n = k + 1 := ⟨n - 1, by omega⟩
  have h2 := hgen k _ 1 (rateLimitStep_first hcount)
  rw [show (1 : Nat) + k = k + 1 by omega] at h2
  exact h2

/-- C3: for a fixed key, (a) when no entry exists or `now` has passed the
stored `resetTime`, the entry is created/reset with count 0 and
`resetTime = now + windowMs`; (b) a counted request increments the key's
counter and the decision is `success = (count ≤ maxRequests)` with
`remaining = max(0, maxRequests − count)` (natural subtraction); (c) hence
from a fresh window the `(N+1)`-th counted request with `maxRequests = N`
yields `success = false`. -/
theorem rateLimit_window_and_limit (config : RateLimitConfig) (statusCode now : Nat)
    (key : String) (store : RLStore) :
    ((storeGet store key = none ∨ (∃ e, storeGet store key = some e ∧ now > e.resetTime)) →
      getOrResetEntry config store key now = ⟨0, now + config.windowMs, config.windowMs⟩) ∧
    (∀ m rt w, storeGet store key = some ⟨m, rt, w⟩ → ¬ now > rt →
      shouldCount config statusCode = true →
      (rateLimitStep config statusCode now key store).1 =
        ⟨decide (m + 1 ≤ config.maxRequests), config.maxRequests,
          config.maxRequests - (m + 1), rt⟩ ∧
      storeGet (rateLimitStep config statusCode now key store).2 key = some ⟨m + 1, rt, w⟩) ∧
    (shouldCount config statusCode = true →
      (rateLimitStep config statusCode now key
        (rateLimitIter config statusCode now key config.maxRequests [])).1.success = false) := by
  refine ⟨?_, ?_, ?_⟩
  · rintro (hnone | ⟨e, he, hexp⟩)
    · unfold getOrResetEntry
      rw [hnone]
    · unfold getOrResetEntry
      rw [he]
      simp [hexp]
  · intro m rt w hget hfresh hcount
    have he0 : getOrResetEntry config store key now = ⟨m, rt, w⟩ :=
      getOrResetEntry_of_get hget hfresh
    constructor
    · simp only [rateLimitStep, he0, hcount, if_true]
    · simp only [rateLimitStep, he0, hcount, if_true]
      exact storeGet_cleanupExpired now _ key (storeGet_storeSet_self store key _) hfresh
  · intro hcount
    rcases hN : config.maxRequests with _ | k
    · have he0 : getOrResetEntry config [] key now = ⟨0, now + config.windowMs, config.windowMs⟩ := by
        unfold getOrResetEntry
        simp [storeGet]
      simp only [rateLimitIter, rateLimitStep, he0, hcount, if_true]
      simp [hN]
    · have hinv := rateLimitIter_entry config statusCode now key hcount (k + 1) (by omega)
      have he0 : getOrResetEntry config
          (rateLimitIter config statusCode now key (k + 1) []) key now =
          ⟨k + 1, now + config.windowMs, config.windowMs⟩ :=
        getOrResetEntry_of_get hinv (by show ¬ now > now + config.windowMs; omega)
      simp only [rateLimitStep, he0, hcount, if_true]
      simp [hN]

/-- Closed instance of `rateLimit_window_and_limit` at `maxRequests = 2`:
an expired entry is reset to a fresh window, a counted in-window request
increments and decides, and the 3rd counted request is rejected. -/
theorem rateLimit_window_and_limit_witness :
    getOrResetEntry ⟨1000, 2, false, false⟩ [(("k" : String), ⟨1, 3, 1000⟩)] ("k") 5 =
      ⟨0, 1005, 1000⟩ ∧
    (rateLimitStep ⟨1000, 2, false, false⟩ 200 5 ("k")
      [(("k" : String), ⟨1, 100, 1000⟩)]).1 = ⟨true, 2, 0, 100⟩ ∧
    (rateLimitStep ⟨1000, 2, false, false⟩ 200 5 ("k")
      (rateLimitIter ⟨1000, 2, false, false⟩ 200 5 ("k") 2 [])).1.success = false := by
  refine ⟨?_, ?_, ?_⟩
  · exact (rateLimit_window_and_limit ⟨1000, 2, false, false⟩ 200 5 ("k")
      [(("k" : String), ⟨1, 3, 1000⟩)]).1 (Or.inr ⟨⟨1, 3, 1000⟩, by decide, by decide⟩)
  · exact ((rateLimit_window_and_limit ⟨1000, 2, false, false⟩ 200 5 ("k")
      [(("k" : String), ⟨1, 100, 1000⟩)]).2.1 1 100 1000 (by decide) (by decide) (by decide)).1
  · exact (rateLimit_window_and_limit ⟨1000, 2, false, false⟩ 200 5 ("k") []).2.2 (by decide)

/-! ## `detectSuspiciousActivity` (src/unnamed/part_004)

Node request headers are string-or-array-or-absent.  The user-agent and
content-length headers are modelled as optional strings (the code reads
them as strings); the two IP headers keep the full string/array shape
because the trigger is `Array.isArray`. -/

/-- A Node header value: absent, a single string, or an array of strings
(the representation of repeated header lines). -/
inductive HeaderVal where
  | none
  | str (s : JSStr)
  | arr (vs : List JSStr)
  deriving Repr, DecidableEq

/-- JS truthiness of `req.headers[h]`. -/
def headerTruthy : HeaderVal → Bool
  | .none => false
  | .str s => !s.isEmpty
  | .arr _ => true

def headerIsArray : HeaderVal → Bool
  | .arr _ => true
  | _ => false

/-- Spec-side count of how many values a header carries. -/
def headerValueCount : HeaderVal → Nat
  | .none => 0
  | .str _ => 1
  | .arr vs => vs.length

/-- The headers `detectSuspiciousActivity` reads. -/
structure SuspReq where
  userAgent : Option JSStr
  xForwardedFor : HeaderVal
  xRealIp : HeaderVal
  contentLength : Option JSStr
  deriving Repr

structure SuspiciousResult where
  isSuspicious : Bool
  reasons : List String
  deriving Repr, DecidableEq

/-- Leading decimal digits of `parseInt`; `none` when there are none (NaN). -/
def parseDigits (s : JSStr) : Option Nat :=
  let ds := s.takeWhile (fun c => decide ('0' ≤ c ∧ c ≤ '9'))
  if ds.isEmpty then none
  else some (ds.foldl (fun acc c => acc * 10 + (c.toNat - 48)) 0)

/-- JS `parseInt` restricted to base-10 numerals as sent in `content-length`:
skip leading whitespace, optional sign, longest digit prefix; `none` is NaN
(every comparison against NaN is false). -/
def jsParseInt (s : JSStr) : Option Int :=
  match s.dropWhile jsIsWs with
  | '-' :: rest => (parseDigits rest).map (fun n => -(n : Int))
  | '+' :: rest => (parseDigits rest).map (fun n => (n : Int))
  | t => (parseDigits t).map (fun n => (n : Int))

def reasonUA : String := "Missing or suspicious user agent"
def reasonBot : String := "Bot-like user agent detected"
def reasonXFF : String := "Multiple x-forwarded-for headers"
def reasonXRI : String := "Multiple x-real-ip headers"
def reasonLarge : String := "Unusually large request"

/-- The fixed bot/crawler/cli-tool pattern set (all patterns carry the `i`
flag, so the test is case-insensitive substring containment). -/
def botPatterns : List JSStr :=
  ["bot".data, "crawler".data, "spider".data, "scraper".data, "curl".data, "wget".data]

/-- Whether the declared content length exceeds 10 MiB. -/
def contentLengthTooLarge (cl : Option JSStr) : Bool :=
  match jsParseInt (cl.getD ("0".data)) with
  | some n => decide (n > 10 * 1024 * 1024)
  | Option.none => false

/-- `detectSuspiciousActivity` from src/unnamed/part_004: each trigger
appends its reason independently; `isSuspicious = reasons.length > 0`. -/
def detectSuspiciousActivity (req : SuspReq) : SuspiciousResult :=
  let userAgent := req.userAgent.getD []
  let reasons : List String :=
    (if userAgent.isEmpty || decide (userAgent.length < 10) then [reasonUA] else []) ++
    (if botPatterns.any (fun p => jsIncludes (userAgent.map Char.toLower) p)
       then [reasonBot] else []) ++
    (if headerTruthy req.xForwardedFor && headerIsArray req.xForwardedFor
       then [reasonXFF] else []) ++
    (if headerTruthy req.xRealIp && headerIsArray req.xRealIp then [reasonXRI] else []) ++
    (if contentLengthTooLarge req.contentLength then [reasonLarge] else [])
  { isSuspicious := decide (reasons.length > 0), reasons := reasons }

/-- C7 counterexample: the claim ties the `Multiple … headers` reason to more
than one value being present, but the source's trigger is `Array.isArray`:
a one-element array for `x-forwarded-for` (one value present) already fires,
with an otherwise innocuous request. -/
theorem detectSuspiciousActivity_single_value_array_cex :
    headerValueCount (HeaderVal.arr ["203.0.113.7".data]) = 1 ∧
    (detectSuspiciousActivity
      { userAgent := some ("Mozilla/5.0 (X11; Linux x86_64)".data),
        xForwardedFor := HeaderVal.arr ["203.0.113.7".data],
        xRealIp := HeaderVal.none,
        contentLength := Option.none }).reasons = [reasonXFF] ∧
    (detectSuspiciousActivity
      { userAgent := some ("Mozilla/5.0 (X11; Linux x86_64)".data),
        xForwardedFor := HeaderVal.arr ["203.0.113.7".data],
        xRealIp := HeaderVal.none,
        contentLength := Option.none }).isSuspicious = true := by
  refine ⟨rfl, ?_, ?_⟩ <;> decide

theorem headerTruthy_and_isArray (h : HeaderVal) :
    (headerTruthy h && headerIsArray h) = headerIsArray h := by
  cases h <;> simp [headerTruthy, headerIsArray]

/-- C7 (amended): each reason is appended independently and exactly when its
trigger holds — user agent absent/short, case-insensitive bot-pattern
substring, the respective IP header being carried as an *array* (of any
length, one-element arrays included — the code tests `Array.isArray`, not
value multiplicity), and a declared content length parsing to more than
10 MiB; `isSuspicious` holds iff some reason was appended. -/
theorem detectSuspiciousActivity_characterization (req : SuspReq) :
    ((detectSuspiciousActivity req).isSuspicious = true ↔
      (detectSuspiciousActivity req).reasons ≠ []) ∧
    (reasonUA ∈ (detectSuspiciousActivity req).reasons ↔
      (req.userAgent.getD []).length < 10) ∧
    (reasonBot ∈ (detectSuspiciousActivity req).reasons ↔
      ∃ p ∈ botPatterns, p <:+: (req.userAgent.getD []).map Char.toLower) ∧
    (reasonXFF ∈ (detectSuspiciousActivity req).reasons ↔
      headerIsArray req.xForwardedFor = true) ∧
    (reasonXRI ∈ (detectSuspiciousActivity req).reasons ↔
      headerIsArray req.xRealIp = true) ∧
    (reasonLarge ∈ (detectSuspiciousActivity req).reasons ↔
      contentLengthTooLarge req.contentLength = true) := by
  have hd : reasonUA ≠ reasonBot ∧ reasonUA ≠ reasonXFF ∧ reasonUA ≠ reasonXRI ∧
      reasonUA ≠ reasonLarge ∧ reasonBot ≠ reasonXFF ∧ reasonBot ≠ reasonXRI ∧
      reasonBot ≠ reasonLarge ∧ reasonXFF ≠ reasonXRI ∧ reasonXFF ≠ reasonLarge ∧
      reasonXRI ≠ reasonLarge := by
    repeat' constructor
    all_goals decide
  obtain ⟨h1, h2, h3, h4, h5, h6, h7, h8, h9, h10⟩ := hd
  have hua : ((req.userAgent.getD []).isEmpty ||
      decide ((req.userAgent.getD []).length < 10)) = true ↔
      (req.userAgent.getD []).length < 10 := by
    cases hcase : (req.userAgent.getD []) <;> simp [hcase]
  have hsusp : (detectSuspiciousActivity req).isSuspicious = true ↔
      (detectSuspiciousActivity req).reasons ≠ [] := by
    have hdef : (detectSuspiciousActivity req).isSuspicious =
        decide ((detectSuspiciousActivity req).reasons.length > 0) := rfl
    rw [hdef]
    simp [List.length_pos]
  refine ⟨hsusp, ?_, ?_, ?_, ?_, ?_⟩ <;>
    simp [detectSuspiciousActivity, mem_if_singleton, jsIncludes, List.any_eq_true,
      headerTruthy_and_isArray, hua,
      h1, h2, h3, h4, h5, h6, h7, h8, h9, h10,
      Ne.symm h1, Ne.symm h2, Ne.symm h3, Ne.symm h4, Ne.symm h5, Ne.symm h6, Ne.symm h7,
      Ne.symm h8, Ne.symm h9, Ne.symm h10]

/-! ## The NextAuth `authorize` callback (src/unnamed/part_000)

The user table and the sign-in flow.  bcrypt comparison (`validatePassword`)
and zod's e-mail format test are abstract boolean parameters; the prisma
`findUnique({ email, isActive: true })` lookup is a first-match search over
the user list. -/

inductive UserStatus where
  | online
  | idle
  | doNotDisturb
  | invisible
  | offline
  deriving Repr, DecidableEq

structure UserRec where
  id : Nat
  email : JSStr
  username : JSStr
  displayName : JSStr
  password : JSStr
  avatarUrl : Option JSStr
  bio : JSStr
  status : UserStatus
  isActive : Bool
  createdAt : Nat
  updatedAt : Nat
  lastSeen : Nat
  deriving Repr, DecidableEq

structure Credentials where
  email : JSStr
  password : JSStr
  deriving Repr, DecidableEq

/-- The object `authorize` returns on success. -/
structure AuthUser where
  id : Nat
  email : JSStr
  name : JSStr
  username : JSStr
  avatarUrl : Option JSStr
  bio : JSStr
  status : UserStatus
  deriving Repr, DecidableEq

/-- `prisma.user.findUnique({ where: { email, isActive: true } })`. -/
def findActiveByEmail (users : List UserRec) (e : JSStr) : Option UserRec :=
  users.find? (fun u => u.email == e && u.isActive)

/-- The `signInSchema.safeParse` success condition: non-empty e-mail of valid
format (zod's format test abstracted as `emailFormat`), non-empty password. -/
def signInSchemaOk (emailFormat : JSStr → Bool) (c : Credentials) : Bool :=
  decide (c.email.length ≥ 1) && emailFormat c.email && decide (c.password.length ≥ 1)

/-- The `authorize` callback: `none` models the JS `null` returned on every
failure path.  On success the user's lastSeen/status are updated and the
claim bundle is built from the *pre-update* row (so `status` is the old
status).  `verify` is bcrypt's compare. -/
def authorize (verify : JSStr → JSStr → Bool) (emailFormat : JSStr → Bool) (now : Nat)
    (users : List UserRec) : Option Credentials → Option AuthUser × List UserRec
  | Option.none => (Option.none, users)
  | some c =>
    if c.email.isEmpty || c.password.isEmpty then (Option.none, users)
    else if !signInSchemaOk emailFormat c then (Option.none, users)
    else
      match findActiveByEmail users (trimJS (c.email.map Char.toLower)) with
      | Option.none => (Option.none, users)
      | some user =>
        if verify c.password user.password then
          (some { id := user.id, email := user.email, name := user.displayName,
                  username := user.username, avatarUrl := user.avatarUrl,
                  bio := user.bio, status := user.status },
           users.map (fun u => if u.id == user.id then
             { u with lastSeen := now, status := UserStatus.online } else u))
        else (Option.none, users)

theorem authorize_mismatch_none {verify emailFormat now users} {c : Credentials}
    (hmis : findActiveByEmail users (trimJS (c.email.map Char.toLower)) = Option.none ∨
      ∃ u, findActiveByEmail users (trimJS (c.email.map Char.toLower)) = some u ∧
        verify c.password u.password = false) :
    (authorize verify emailFormat now users (some c)).1 = Option.none := by
  rw [authorize]
  by_cases h1 : (c.email.isEmpty || c.password.isEmpty) = true
  · simp only [h1, if_true]
  · rw [if_neg h1]
    by_cases h2 : (!signInSchemaOk emailFormat c) = true
    · simp only [h2, if_true]
    · rw [if_neg h2]
      rcases hmis with hnone | ⟨u, hu, hv⟩
      · rw [hnone]
      · rw [hu]
        simp [hv]

/-- C2: `authorize` returns the same opaque failure value (JS `null`, here
`none`) in every mismatch case — the normalized e-mail matches no user row at
all, every matching row is inactive, or the matched active row's stored hash
rejects the supplied password — so a caller cannot distinguish the cases from
the returned result. -/
theorem authorize_opaque_failure (verify : JSStr → JSStr → Bool)
    (emailFormat : JSStr → Bool) (now : Nat) (users : List UserRec) (c : Credentials) :
    ((∀ u ∈ users, u.email ≠ trimJS (c.email.map Char.toLower)) →
      (authorize verify emailFormat now users (some c)).1 = Option.none) ∧
    ((∀ u ∈ users, u.email = trimJS (c.email.map Char.toLower) → u.isActive = false) →
      (authorize verify emailFormat now users (some c)).1 = Option.none) ∧
    (∀ u, findActiveByEmail users (trimJS (c.email.map Char.toLower)) = some u →
      verify c.password u.password = false →
      (authorize verify emailFormat now users (some c)).1 = Option.none) := by
  refine ⟨?_, ?_, ?_⟩
  · intro h
    refine authorize_mismatch_none (Or.inl ?_)
    unfold findActiveByEmail
    rw [List.find?_eq_none]
    intro u hu
    simp [h u hu]
  · intro h
    refine authorize_mismatch_none (Or.inl ?_)
    unfold findActiveByEmail
    rw [List.find?_eq_none]
    intro u hu
    by_cases he : u.email = trimJS (c.email.map Char.toLower)
    · simp [h u hu he]
    · simp [he]
  · intro u hu hv
    exact authorize_mismatch_none (Or.inr ⟨u, hu, hv⟩)

/-- Closed instance of `authorize_opaque_failure`: with a one-user table the
three mismatch shapes (wrong e-mail, inactive row, wrong password) all come
out as the same `none`. -/
theorem authorize_opaque_failure_witness :
    (authorize (fun p h => p == h) (fun _ => true) 7
      [{ id := 1, email := "a@b.com".data, username := "alice".data,
         displayName := "Alice".data, password := "hash1".data, avatarUrl := Option.none,
         bio := [], status := UserStatus.offline, isActive := true,
         createdAt := 0, updatedAt := 0, lastSeen := 0 }]
      (some { email := "C@D.com".data, password := "hash1".data })).1 = Option.none ∧
    (authorize (fun p h => p == h) (fun _ => true) 7
      [{ id := 1, email := "a@b.com".data, username := "alice".data,
         displayName := "Alice".data, password := "hash1".data, avatarUrl := Option.none,
         bio := [], status := UserStatus.offline, isActive := false,
         createdAt := 0, updatedAt := 0, lastSeen := 0 }]
      (some { email := "A@b.com".data, password := "hash1".data })).1 = Option.none ∧
    (authorize (fun p h => p == h) (fun _ => true) 7
      [{ id := 1, email := "a@b.com".data, username := "alice".data,
         displayName := "Alice".data, password := "hash1".data, avatarUrl := Option.none,
         bio := [], status := UserStatus.offline, isActive := true,
         createdAt := 0, updatedAt := 0, lastSeen := 0 }]
      (some { email := "A@b.com".data, password := "wrong".data })).1 = Option.none := by
  refine ⟨?_, ?_, ?_⟩
  · exact (authorize_opaque_failure (fun p h => p == h) (fun _ => true) 7 _ _).1
      (by decide)
  · exact (authorize_opaque_failure (fun p h => p == h) (fun _ => true) 7 _ _).2.1
      (by decide)
  · exact (authorize_opaque_failure (fun p h => p == h) (fun _ => true) 7 _ _).2.2
      { id := 1, email := "a@b.com".data, username := "alice".data,
        displayName := "Alice".data, password := "hash1".data, avatarUrl := Option.none,
        bio := [], status := UserStatus.offline, isActive := true,
        createdAt := 0, updatedAt := 0, lastSeen := 0 } (by decide) (by decide)

/-! ## `generateUsername` (src/lib/auth.ts)

Decimal printing: `Nat.repr` is characterized by the recursive `natChars`
below, which yields injectivity of the numeric suffixes and hence the
pigeonhole bound that makes the collision loop total. -/

/-- Decimal digits of `n`, most significant first. -/
def natChars (n : Nat) : List Char :=
  if _h : n < 10 then [Nat.digitChar n]
  else natChars (n / 10) ++ [Nat.digitChar (n % 10)]
decreasing_by exact Nat.div_lt_self (by omega) (by omega)

theorem natChars_lt {n : Nat} (h : n < 10) : natChars n = [Nat.digitChar n] := by
  rw [natChars, dif_pos h]

theorem natChars_ge {n : Nat} (h : ¬ n < 10) :
    natChars n = natChars (n / 10) ++ [Nat.digitChar (n % 10)] := by
  conv_lhs => rw [natChars]
  rw [dif_neg h]

theorem toDigitsCore_eq_natChars :
    ∀ (fuel n : Nat) (acc : List Char), n < fuel →
      Nat.toDigitsCore 10 fuel n acc = natChars n ++ acc := by
  intro fuel
  induction fuel with
  | zero => intro n acc h; omega
  | succ fuel ih =>
    intro n acc h
    by_cases h10 : n / 10 = 0
    · have hlt : n < 10 := (Nat.div_eq_zero_iff (by omega)).mp h10
      simp only [Nat.toDigitsCore, h10, if_true]
      rw [natChars_lt hlt, Nat.mod_eq_of_lt hlt]
      rfl
    · have hge : ¬ n < 10 := by
        intro hlt
        exact h10 ((Nat.div_eq_zero_iff (by omega)).mpr hlt)
      have hpos : 0 < n := by omega
      have hfuel : n / 10 < fuel :=
        Nat.lt_of_lt_of_le (Nat.div_lt_self hpos (by omega)) (by omega)
      simp only [Nat.toDigitsCore, h10, if_false]
      rw [ih (n / 10) (Nat.digitChar (n % 10) :: acc) hfuel, natChars_ge hge,
        List.append_assoc]
      rfl

theorem repr_data_eq_natChars (n : Nat) : (Nat.repr n).data = natChars n := by
  show (List.asString (Nat.toDigits 10 n)).data = natChars n
  rw [show (List.asString (Nat.toDigits 10 n)).data = Nat.toDigits 10 n from rfl]
  unfold Nat.toDigits
  rw [toDigitsCore_eq_natChars (n + 1) n [] (by omega), List.append_nil]

theorem digitChar_inj_lt : ∀ a, a < 10 → ∀ b, b < 10 →
    Nat.digitChar a = Nat.digitChar b → a = b := by decide

theorem natChars_ne_nil (n : Nat) : natChars n ≠ [] := by
  by_cases h : n < 10
  · rw [natChars_lt h]; simp
  · rw [natChars_ge h]; simp

theorem natChars_injective : ∀ n m : Nat, natChars n = natChars m → n = m := by
  intro n
  induction n using Nat.strong_induction_on with
  | _ n ih =>
    intro m heq
    by_cases hn : n < 10 <;> by_cases hm : m < 10
    · rw [natChars_lt hn, natChars_lt hm] at heq
      exact digitChar_inj_lt n hn m hm (by simpa using heq)
    · exfalso
      rw [natChars_lt hn, natChars_ge hm] at heq
      have hlen := congrArg List.length heq
      have hpos : 0 < (natChars (m / 10)).length :=
        List.length_pos.mpr (natChars_ne_nil (m / 10))
      simp only [List.length_append, List.length_cons, List.length_nil] at hlen
      omega
    · exfalso
      rw [natChars_ge hn, natChars_lt hm] at heq
      have hlen := congrArg List.length heq
      have hpos : 0 < (natChars (n / 10)).length :=
        List.length_pos.mpr (natChars_ne_nil (n / 10))
      simp only [List.length_append, List.length_cons, List.length_nil] at hlen
      omega
    · rw [natChars_ge hn, natChars_ge hm] at heq
      obtain ⟨h1, h2⟩ := List.append_inj' heq (by simp)
      have hdiv : n / 10 = m / 10 :=
        ih (n / 10) (Nat.div_lt_self (by omega) (by omega)) (m / 10) h1
      have hmod : n % 10 = m % 10 :=
        digitChar_inj_lt (n % 10) (Nat.mod_lt n (by omega)) (m % 10)
          (Nat.mod_lt m (by omega)) (by simpa using h2)
      have hn' := Nat.div_add_mod n 10
      have hm' := Nat.div_add_mod m 10
      omega

theorem nat_repr_injective {n m : Nat} (h : Nat.repr n = Nat.repr m) : n = m :=
  natChars_injective n m (by
    rw [← repr_data_eq_natChars, ← repr_data_eq_natChars, h])

/-- The base derived from the display name: lower-case, strip everything
outside `[a-z0-9]`, truncate to 16, fall back to the literal `user`. -/
def usernameBase (displayName : JSStr) : JSStr :=
  let s := ((displayName.map Char.toLower).filter
    (fun c => decide (('a' ≤ c ∧ c ≤ 'z') ∨ ('0' ≤ c ∧ c ≤ '9')))).take 16
  if s.isEmpty then "user".data else s

/-- The candidate sequence of the collision loop: the plain base first, then
`base1`, `base2`, …  (`username = baseUsername + counter` with counter
starting at 1). -/
def usernameCandidate (base : JSStr) : Nat → JSStr
  | 0 => base
  | k + 1 => base ++ (Nat.repr (k + 1)).data

/-- `prisma.user.findUnique({ where: { username } })` probed truthy. -/
def usernameTaken (taken : List JSStr) (u : JSStr) : Bool := taken.contains u

/-- The `while (await prisma.user.findUnique({ where: { username } }))` loop.
The source loop has no fuel; it terminates because the candidates are
pairwise distinct while the taken set is finite, so `taken.length + 1`
probes always suffice (pigeonhole, proven below) and the fuel-out branch is
never reached. -/
def generateUsernameLoop (taken : List JSStr) (base : JSStr) : Nat → Nat → JSStr
  | 0, k => usernameCandidate base k
  | fuel + 1, k =>
    if usernameTaken taken (usernameCandidate base k) then
      generateUsernameLoop taken base fuel (k + 1)
    else usernameCandidate base k

/-- `generateUsername` from src/lib/auth.ts. -/
def generateUsername (taken : List JSStr) (displayName : JSStr) : JSStr :=
  generateUsernameLoop taken (usernameBase displayName) (taken.length + 1) 0

theorem usernameCandidate_injective (base : JSStr) :
    Function.Injective (usernameCandidate base) := by
  intro i j hij
  match i, j with
  | 0, 0 => rfl
  | 0, j + 1 =>
    exfalso
    have hlen := congrArg List.length hij
    have hne : (Nat.repr (j + 1)).data ≠ [] := by
      rw [repr_data_eq_natChars]
      exact natChars_ne_nil (j + 1)
    have hpos : 0 < ((Nat.repr (j + 1)).data).length := List.length_pos.mpr hne
    simp only [usernameCandidate, List.length_append] at hlen
    omega
  | i + 1, 0 =>
    exfalso
    have hlen := congrArg List.length hij
    have hne : (Nat.repr (i + 1)).data ≠ [] := by
      rw [repr_data_eq_natChars]
      exact natChars_ne_nil (i + 1)
    have hpos : 0 < ((Nat.repr (i + 1)).data).length := List.length_pos.mpr hne
    simp only [usernameCandidate, List.length_append] at hlen
    omega
  | i + 1, j + 1 =>
    simp only [usernameCandidate] at hij
    have hdata := List.append_cancel_left hij
    have hrepr : Nat.repr (i + 1) = Nat.repr (j + 1) := by
      cases hra : Nat.repr (i + 1) with
      | mk l =>
        cases hrb : Nat.repr (j + 1) with
        | mk l' =>
          rw [hra, hrb] at hdata
          have hll : l = l' := by simpa using hdata
          rw [hll]
    rw [nat_repr_injective hrepr]

/-- Pigeonhole: among the first `taken.length + 1` candidates (which are
pairwise distinct) at least one is not taken. -/
theorem exists_free_candidate (taken : List JSStr) (base : JSStr) :
    ∃ j, j < taken.length + 1 ∧
      usernameTaken taken (usernameCandidate base j) = false := by
  by_contra hall
  push_neg at hall
  have htaken : ∀ j < taken.length + 1, usernameCandidate base j ∈ taken := by
    intro j hj
    have := hall j hj
    rcases hb : usernameTaken taken (usernameCandidate base j) with _ | _
    · exact absurd hb this
    · simpa [usernameTaken] using hb
  have hnodup : ((List.range (taken.length + 1)).map (usernameCandidate base)).Nodup :=
    (List.nodup_range _).map (usernameCandidate_injective base)
  have hsub : ((List.range (taken.length + 1)).map (usernameCandidate base)) ⊆ taken := by
    intro x hx
    obtain ⟨j, hj, rfl⟩ := List.mem_map.mp hx
    exact htaken j (List.mem_range.mp hj)
  have hfin : ((List.range (taken.length + 1)).map (usernameCandidate base)).toFinset ⊆
      taken.toFinset := by
    intro x hx
    simp only [List.mem_toFinset] at hx ⊢
    exact hsub hx
  have hcard := Finset.card_le_card hfin
  rw [List.toFinset_card_of_nodup hnodup] at hcard
  have hle := List.toFinset_card_le taken
  simp only [List.length_map, List.length_range] at hcard
  omega

theorem generateUsernameLoop_min :
    ∀ (taken : List JSStr) (base : JSStr) (fuel k : Nat),
      (∃ j, j < fuel ∧ usernameTaken taken (usernameCandidate base (k + j)) = false) →
      ∃ m, generateUsernameLoop taken base fuel k = usernameCandidate base (k + m) ∧
        usernameTaken taken (usernameCandidate base (k + m)) = false ∧
        ∀ j < m, usernameTaken taken (usernameCandidate base (k + j)) = true := by
  intro taken base fuel
  induction fuel with
  | zero => intro k h; omega
  | succ fuel ih =>
    intro k h
    by_cases hk : usernameTaken taken (usernameCandidate base k) = true
    · obtain ⟨j, hj, hfree⟩ := h
      match j, hj with
      | 0, _ =>
        rw [show k + 0 = k by omega] at hfree
        rw [hk] at hfree
        cases hfree
      | j + 1, hj =>
        have hex : ∃ j', j' < fuel ∧
            usernameTaken taken (usernameCandidate base ((k + 1) + j')) = false := by
          refine ⟨j, by omega, ?_⟩
          rw [show k + 1 + j = k + (j + 1) by omega]
          exact hfree
        obtain ⟨m', hm1, hm2, hm3⟩ := ih (k + 1) hex
        refine ⟨m' + 1, ?_, ?_, ?_⟩
        · rw [generateUsernameLoop, if_pos hk, hm1,
            show k + 1 + m' = k + (m' + 1) by omega]
        · rw [show k + (m' + 1) = k + 1 + m' by omega]
          exact hm2
        · intro i hi
          match i with
          | 0 => rw [show k + 0 = k by omega]; exact hk
          | i + 1 =>
            rw [show k + (i + 1) = k + 1 + i by omega]
            exact hm3 i (by omega)
    · have hk' : usernameTaken taken (usernameCandidate base k) = false := by
        rcases hb : usernameTaken taken (usernameCandidate base k) with _ | _
        · rfl
        · exact absurd hb hk
      refine ⟨0, ?_, ?_, by omega⟩
      · rw [generateUsernameLoop, if_neg (by rw [hk']; exact Bool.false_ne_true),
          show k + 0 = k by omega]
      · rw [show k + 0 = k by omega]; exact hk'

/-- C6: `generateUsername` derives its base by lower-casing, stripping
non-`[a-z0-9]`, truncating to 16 and defaulting to `user`; it returns the
base when free and otherwise the base with the smallest positive integer
suffix whose combination is free (candidates before it are all taken); and
with `alice` and `alice1` taken, the display name `Alice!` yields `alice2`. -/
theorem generateUsername_minimal_free_candidate (taken : List JSStr) (displayName : JSStr) :
    (∃ k, generateUsername taken displayName =
        usernameCandidate (usernameBase displayName) k ∧
      usernameTaken taken (usernameCandidate (usernameBase displayName) k) = false ∧
      ∀ j < k, usernameTaken taken (usernameCandidate (usernameBase displayName) j) = true) ∧
    (usernameTaken taken (usernameBase displayName) = false →
      generateUsername taken displayName = usernameBase displayName) ∧
    generateUsername ["alice".data, "alice1".data] ("Alice!".data) = "alice2".data := by
  have hmain : ∃ k, generateUsername taken displayName =
      usernameCandidate (usernameBase displayName) k ∧
      usernameTaken taken (usernameCandidate (usernameBase displayName) k) = false ∧
      ∀ j < k, usernameTaken taken (usernameCandidate (usernameBase displayName) j) = true := by
    obtain ⟨j, hj, hfree⟩ := exists_free_candidate taken (usernameBase displayName)
    have hex : ∃ j', j' < taken.length + 1 ∧
        usernameTaken taken (usernameCandidate (usernameBase displayName) (0 + j')) = false :=
      ⟨j, hj, by rw [show 0 + j = j by omega]; exact hfree⟩
    obtain ⟨m, hm1, hm2, hm3⟩ :=
      generateUsernameLoop_min taken (usernameBase displayName) (taken.length + 1) 0 hex
    refine ⟨m, ?_, ?_, ?_⟩
    · rw [show generateUsername taken displayName =
        generateUsernameLoop taken (usernameBase displayName) (taken.length + 1) 0 from rfl,
        hm1, show 0 + m = m by omega]
    · rw [← show 0 + m = m by omega]; exact hm2
    · intro i hi
      rw [← show 0 + i = i by omega]
      exact hm3 i hi
  refine ⟨hmain, ?_, by decide⟩
  intro hfree
  obtain ⟨k, hk1, hk2, hk3⟩ := hmain
  match k with
  | 0 => exact hk1
  | k + 1 =>
    exfalso
    have := hk3 0 (by omega)
    rw [show usernameCandidate (usernameBase displayName) 0 =
      usernameBase displayName from rfl] at this
    rw [this] at hfree
    cases hfree

/-- Closed instance of `generateUsername_minimal_free_candidate`: with no user
taken, the sanitized base itself is returned. -/
theorem generateUsername_minimal_free_candidate_witness :
    generateUsername [] ("Bob_42!".data) = "bob42".data :=
  (generateUsername_minimal_free_candidate [] ("Bob_42!".data)).2.1 (by decide)

/-! ## Profile handlers (src/pages/api/user/profile.ts)

`handleDelete` and `handlePatch` over an explicit database of user, session
and account rows.  The handlers return the HTTP status code paired with the
resulting database; a prisma `update` on a missing row throws and is caught
as a 500. -/

structure SessionRec where
  id : Nat
  userId : Nat
  deriving Repr, DecidableEq

structure AccountRec where
  id : Nat
  userId : Nat
  deriving Repr, DecidableEq

structure Db where
  users : List UserRec
  sessions : List SessionRec
  accounts : List AccountRec
  deriving Repr, DecidableEq

/-- `prisma.user.findUnique({ where: { id, isActive: true } })`. -/
def findActiveById (users : List UserRec) (uid : Nat) : Option UserRec :=
  users.find? (fun u => u.id == uid && u.isActive)

/-- `handleDelete`: requires a truthy `password` in the body (400 otherwise),
404 when no active row matches the session user, 400 when bcrypt rejects,
and only then soft-deletes the user and deletes the session/account rows. -/
def handleDelete (verify : JSStr → JSStr → Bool) (now : Nat) (db : Db)
    (sessionUserId : Nat) (password : Option JSStr) : Nat × Db :=
  let pw := password.getD []
  if pw.isEmpty then (400, db)
  else
    match findActiveById db.users sessionUserId with
    | Option.none => (404, db)
    | some user =>
      if !(verify pw user.password) then (400, db)
      else
        (200,
         { users := db.users.map (fun u => if u.id == sessionUserId then
             { u with isActive := false, status := UserStatus.offline, updatedAt := now }
           else u),
           sessions := db.sessions.filter (fun s => !(s.userId == sessionUserId)),
           accounts := db.accounts.filter (fun a => !(a.userId == sessionUserId)) })

/-- C8: account deactivation is atomic on error — a missing/empty body
password or a password that fails validation against the stored hash yields
status 400 with the database untouched: the user row keeps `isActive = true`
with all fields unchanged and no session or account rows are deleted. -/
theorem handleDelete_atomic_on_error (verify : JSStr → JSStr → Bool) (now : Nat)
    (db : Db) (sessionUserId : Nat) :
    ((∀ pw : Option JSStr, pw = Option.none ∨ pw = some [] →
      handleDelete verify now db sessionUserId pw = (400, db))) ∧
    (∀ (pstr : JSStr) (u : UserRec),
      findActiveById db.users sessionUserId = some u →
      verify pstr u.password = false →
      handleDelete verify now db sessionUserId (some pstr) = (400, db)) := by
  constructor
  · rintro pw (rfl | rfl) <;> rfl
  · intro pstr u hu hv
    unfold handleDelete
    by_cases hempty : (pstr.isEmpty : Bool) = true
    · simp only [Option.getD_some, hempty, if_true]
    · simp only [Option.getD_some]
      rw [if_neg hempty, hu]
      simp [hv]

/-- A sample user row for closed instances. -/
def aliceRow : UserRec where
  id := 1
  email := "a@b.com".data
  username := "alice".data
  displayName := "Alice".data
  password := "hash1".data
  avatarUrl := Option.none
  bio := []
  status := UserStatus.online
  isActive := true
  createdAt := 0
  updatedAt := 0
  lastSeen := 0

/-- A sample database for closed instances. -/
def sampleDb : Db where
  users := [aliceRow]
  sessions := [{ id := 5, userId := 1 }]
  accounts := [{ id := 6, userId := 1 }]

/-- Closed instance of `handleDelete_atomic_on_error` on a one-user database. -/
theorem handleDelete_atomic_on_error_witness :
    handleDelete (fun p h => p == h) 9 sampleDb 1 (some ("wrong".data)) = (400, sampleDb) :=
  (handleDelete_atomic_on_error (fun p h => p == h) 9 sampleDb 1).2 ("wrong".data)
    aliceRow (by decide) (by decide)

/-- The body of a profile PATCH after JSON decoding: any subset of the four
editable fields (zod already types `status` as the enum). -/
structure ProfilePatch where
  displayName : Option JSStr
  username : Option JSStr
  bio : Option JSStr
  status : Option UserStatus
  deriving Repr, DecidableEq

def isAlnumAscii (c : Char) : Bool :=
  decide (('a' ≤ c ∧ c ≤ 'z') ∨ ('A' ≤ c ∧ c ≤ 'Z') ∨ ('0' ≤ c ∧ c ≤ '9'))

/-- `/^[a-zA-Z0-9\s._-]+$/` with length in `[2, 32]`. -/
def validDisplayName (s : JSStr) : Bool :=
  decide (2 ≤ s.length) && decide (s.length ≤ 32) &&
    s.all (fun c => isAlnumAscii c || jsIsWs c || c == '.' || c == '_' || c == '-')

/-- `/^[a-zA-Z0-9._-]+$/` with length in `[3, 32]`. -/
def validUsername (s : JSStr) : Bool :=
  decide (3 ≤ s.length) && decide (s.length ≤ 32) &&
    s.all (fun c => isAlnumAscii c || c == '.' || c == '_' || c == '-')

def validBio (s : JSStr) : Bool := decide (s.length ≤ 280)

/-- `profileUpdateSchema.safeParse`: each present field must pass its checks;
zod's trailing `.trim()` transforms then apply, so the validated data carries
trimmed strings. -/
def profileUpdateSchemaParse (p : ProfilePatch) : Option ProfilePatch :=
  if (match p.displayName with | some s => validDisplayName s | Option.none => true) &&
     (match p.username with | some s => validUsername s | Option.none => true) &&
     (match p.bio with | some s => validBio s | Option.none => true) then
    some { displayName := p.displayName.map trimJS,
           username := p.username.map trimJS,
           bio := p.bio.map trimJS,
           status := p.status }
  else Option.none

/-- The per-row effect of the single `prisma.user.update` of `handlePatch`:
the row with the session user id receives exactly the collected fields plus
`updatedAt`; every other row is untouched.  `su` is the already
sanitized-and-lowercased username, when one was sent. -/
def patchRow (now : Nat) (uid : Nat) (data : ProfilePatch) (su : Option JSStr)
    (u : UserRec) : UserRec :=
  if u.id == uid then
    { u with
      displayName := (data.displayName.map sanitizeInput).getD u.displayName,
      username := su.getD u.username,
      bio := (data.bio.map sanitizeInput).getD u.bio,
      status := data.status.getD u.status,
      updatedAt := now }
  else u

/-- The `prisma.user.update` call: a missing row throws, caught as a 500. -/
def applyProfileUpdate (now : Nat) (db : Db) (uid : Nat) (data : ProfilePatch)
    (su : Option JSStr) : Nat × Db :=
  if db.users.any (fun u => u.id == uid) then
    (200, { db with users := db.users.map (patchRow now uid data su) })
  else (500, db)

/-- The part of `handlePatch` after successful validation: when a username is
sent it is sanitized and lower-cased, probed for uniqueness against *other*
users (400 when taken), and only then written together with the other present
fields and the `updatedAt` timestamp. -/
def handlePatchWithData (now : Nat) (db : Db) (sessionUserId : Nat)
    (data : ProfilePatch) : Nat × Db :=
  match data.username with
  | some un =>
    let su := (sanitizeInput un).map Char.toLower
    if db.users.any (fun u => u.username == su && !(u.id == sessionUserId)) then
      (400, db)
    else applyProfileUpdate now db sessionUserId data (some su)
  | Option.none => applyProfileUpdate now db sessionUserId data Option.none

def handlePatch (now : Nat) (db : Db) (sessionUserId : Nat) (body : ProfilePatch) :
    Nat × Db :=
  match profileUpdateSchemaParse body with
  | Option.none => (400, db)
  | some data => handlePatchWithData now db sessionUserId data

/-- The all-absent PATCH body. -/
def emptyPatch : ProfilePatch :=
  { displayName := Option.none, username := Option.none,
    bio := Option.none, status := Option.none }

theorem profileUpdateSchemaParse_fields {body data : ProfilePatch}
    (hparse : profileUpdateSchemaParse body = some data) :
    data.displayName = body.displayName.map trimJS ∧
    data.username = body.username.map trimJS ∧
    data.bio = body.bio.map trimJS ∧
    data.status = body.status := by
  unfold profileUpdateSchemaParse at hparse
  split at hparse
  · cases hparse
    exact ⟨rfl, rfl, rfl, rfl⟩
  · cases hparse


theorem handlePatch_eq_of_parse {now : Nat} {db : Db} {uid : Nat}
    {body data : ProfilePatch} (hparse : profileUpdateSchemaParse body = some data) :
    handlePatch now db uid body = handlePatchWithData now db uid data := by
  unfold handlePatch
  rw [hparse]

theorem handlePatchWithData_none {now : Nat} {db : Db} {uid : Nat}
    {data : ProfilePatch} (hdu : data.username = Option.none) :
    handlePatchWithData now db uid data = applyProfileUpdate now db uid data Option.none := by
  unfold handlePatchWithData
  rw [hdu]

theorem handlePatchWithData_some {now : Nat} {db : Db} {uid : Nat}
    {data : ProfilePatch} {un : JSStr} (hdu : data.username = some un) :
    handlePatchWithData now db uid data =
      (if db.users.any (fun u =>
          u.username == (sanitizeInput un).map Char.toLower && !(u.id == uid)) then
        (400, db)
      else applyProfileUpdate now db uid data (some ((sanitizeInput un).map Char.toLower))) := by
  unfold handlePatchWithData
  rw [hdu]

/-- C9: the PATCH write is framed to the requested subset — when the handler
succeeds (status 200), the sessions and accounts are untouched and the user
table is rewritten row-wise by `patchRow`, which leaves every row with a
different id unchanged and, on the session user's row, changes only the
fields present in the body plus `updatedAt` (e-mail, password hash, avatar,
active flag, creation time and last-seen are always preserved); a valid
empty body still performs the write, setting `updatedAt` and nothing else. -/
theorem handlePatch_frame (now : Nat) (db : Db) (uid : Nat) (body data : ProfilePatch)
    (hparse : profileUpdateSchemaParse body = some data) :
    ((handlePatch now db uid body).1 = 200 →
      ∃ su : Option JSStr,
        (handlePatch now db uid body).2 =
          { db with users := db.users.map (patchRow now uid data su) } ∧
        (body.username = Option.none → su = Option.none)) ∧
    (∀ (u : UserRec) (su : Option JSStr), u.id ≠ uid → patchRow now uid data su u = u) ∧
    (∀ (u : UserRec) (su : Option JSStr), u.id = uid →
      (patchRow now uid data su u).email = u.email ∧
      (patchRow now uid data su u).password = u.password ∧
      (patchRow now uid data su u).avatarUrl = u.avatarUrl ∧
      (patchRow now uid data su u).isActive = u.isActive ∧
      (patchRow now uid data su u).createdAt = u.createdAt ∧
      (patchRow now uid data su u).lastSeen = u.lastSeen ∧
      (patchRow now uid data su u).updatedAt = now ∧
      (body.displayName = Option.none →
        (patchRow now uid data su u).displayName = u.displayName) ∧
      (body.bio = Option.none → (patchRow now uid data su u).bio = u.bio) ∧
      (body.status = Option.none → (patchRow now uid data su u).status = u.status) ∧
      (su = Option.none → (patchRow now uid data su u).username = u.username)) ∧
    ((∃ w ∈ db.users, w.id = uid) →
      handlePatch now db uid emptyPatch =
        (200, { db with users := db.users.map (fun u => if u.id == uid then
          { u with updatedAt := now } else u) })) := by
  obtain ⟨hdn, hun, hbio, hst⟩ := profileUpdateSchemaParse_fields hparse
  refine ⟨?_, ?_, ?_, ?_⟩
  · intro h200
    rw [handlePatch_eq_of_parse hparse] at h200 ⊢
    cases hdu : data.username with
    | none =>
      rw [handlePatchWithData_none hdu] at h200 ⊢
      unfold applyProfileUpdate at h200 ⊢
      by_cases hex : db.users.any (fun u => u.id == uid) = true
      · rw [if_pos hex]
        exact ⟨Option.none, rfl, fun _ => rfl⟩
      · rw [if_neg hex] at h200
        cases h200
    | some un =>
      rw [handlePatchWithData_some hdu] at h200 ⊢
      by_cases htaken : db.users.any (fun u =>
          u.username == (sanitizeInput un).map Char.toLower && !(u.id == uid)) = true
      · rw [if_pos htaken] at h200
        cases h200
      · rw [if_neg htaken] at h200 ⊢
        unfold applyProfileUpdate at h200 ⊢
        by_cases hex : db.users.any (fun u => u.id == uid) = true
        · rw [if_pos hex]
          refine ⟨some ((sanitizeInput un).map Char.toLower), rfl, ?_⟩
          intro hnone
          rw [hnone] at hun
          simp at hun
          rw [hun] at hdu
          cases hdu
        · rw [if_neg hex] at h200
          cases h200
  · intro u su hne
    unfold patchRow
    rw [if_neg (by simp [hne])]
  · intro u su heq
    unfold patchRow
    rw [if_pos (by simp [heq])]
    refine ⟨rfl, rfl, rfl, rfl, rfl, rfl, rfl, ?_, ?_, ?_, ?_⟩
    · intro hnone
      rw [hnone] at hdn
      simp at hdn
      simp [hdn]
    · intro hnone
      rw [hnone] at hbio
      simp at hbio
      simp [hbio]
    · intro hnone
      rw [hnone] at hst
      simp [hst]
    · intro hnone
      simp [hnone]
  · intro hex
    have hexb : db.users.any (fun u => u.id == uid) = true := by
      rw [List.any_eq_true]
      obtain ⟨w, hw, hwid⟩ := hex
      exact ⟨w, hw, by simp [hwid]⟩
    have h1 : handlePatch now db uid emptyPatch =
        applyProfileUpdate now db uid emptyPatch Option.none := by
      rw [handlePatch_eq_of_parse
        (show profileUpdateSchemaParse emptyPatch = some emptyPatch from rfl)]
      exact handlePatchWithData_none rfl
    rw [h1]
    unfold applyProfileUpdate
    rw [if_pos hexb]
    rfl

/-- Closed instance of `handlePatch_frame`: a valid empty body updates only
`updatedAt`. -/
theorem handlePatch_frame_witness :
    handlePatch 9 sampleDb 1 emptyPatch =
      (200, { users := [{ aliceRow with updatedAt := 9 }],
              sessions := sampleDb.sessions, accounts := sampleDb.accounts }) := by
  have h := (handlePatch_frame 9 sampleDb 1 emptyPatch emptyPatch rfl).2.2.2 (by decide)
  rw [h]
  decide

theorem toLower_eq_ltChar {c : Char} (h : Char.toLower c = '<') : c = '<' := by
  have h' : (if c.toNat ≥ 65 ∧ c.toNat ≤ 90 then Char.ofNat (c.toNat + 32) else c) = '<' := h
  clear h
  rename' h' => h
  split at h
  · next hcond =>
    exfalso
    obtain ⟨h1, h2⟩ := hcond
    set n := c.toNat with hn
    interval_cases n <;> exact absurd h (by decide)
  · exact h

/-- `toLowerCase` never produces an ASCII uppercase letter. -/
theorem toLower_not_upper (c : Char) :
    (Char.toLower c).toNat < 65 ∨ 90 < (Char.toLower c).toNat := by
  have hdef : Char.toLower c =
      (if c.toNat ≥ 65 ∧ c.toNat ≤ 90 then Char.ofNat (c.toNat + 32) else c) := rfl
  rw [hdef]
  split
  · next hcond =>
    obtain ⟨h1, h2⟩ := hcond
    set n := c.toNat with hn
    interval_cases n <;> exact (by decide)
  · next hcond =>
    omega

theorem noTag_map_toLower {l : JSStr} (h : NoTag l) : NoTag (l.map Char.toLower) := by
  obtain ⟨a, b, rfl, ha, hb⟩ := h
  refine ⟨a.map Char.toLower, b.map Char.toLower, by simp, ?_, ?_⟩
  · intro hm
    obtain ⟨c, hc, hcl⟩ := List.mem_map.mp hm
    exact ha (toLower_eq_ltChar hcl ▸ hc)
  · intro hm
    obtain ⟨c, hc, hcl⟩ := List.mem_map.mp hm
    exact hb (toLower_eq_gtChar hcl ▸ hc)

/-- C10: a username stored through the profile PATCH handler is normalized
before both the uniqueness probe and the write — the persisted value is
`sanitizeInput(username).toLowerCase()`, which carries no ASCII uppercase
letter and no `'<' … '>'` tag material; and when another user already holds
exactly the normalized value, the handler answers 400 without writing. -/
theorem handlePatch_username_normalized (now : Nat) (db : Db) (uid : Nat)
    (body data : ProfilePatch) (un : JSStr)
    (hparse : profileUpdateSchemaParse body = some data)
    (hdu : data.username = some un) :
    ((handlePatch now db uid body).1 = 200 →
      (handlePatch now db uid body).2 =
        { db with users :=
            db.users.map (patchRow now uid data (some ((sanitizeInput un).map Char.toLower))) } ∧
      ∀ u : UserRec, u.id = uid →
        (patchRow now uid data (some ((sanitizeInput un).map Char.toLower)) u).username =
          (sanitizeInput un).map Char.toLower) ∧
    (∀ c ∈ (sanitizeInput un).map Char.toLower, c.toNat < 65 ∨ 90 < c.toNat) ∧
    NoTag ((sanitizeInput un).map Char.toLower) ∧
    ((∃ v ∈ db.users, v.username = (sanitizeInput un).map Char.toLower ∧ v.id ≠ uid) →
      handlePatch now db uid body = (400, db)) := by
  refine ⟨?_, ?_, ?_, ?_⟩
  · intro h200
    rw [handlePatch_eq_of_parse hparse] at h200 ⊢
    rw [handlePatchWithData_some hdu] at h200 ⊢
    constructor
    · by_cases htaken : db.users.any (fun u =>
          u.username == (sanitizeInput un).map Char.toLower && !(u.id == uid)) = true
      · rw [if_pos htaken] at h200
        cases h200
      · rw [if_neg htaken] at h200 ⊢
        unfold applyProfileUpdate at h200 ⊢
        by_cases hex : db.users.any (fun u => u.id == uid) = true
        · rw [if_pos hex]
        · rw [if_neg hex] at h200
          cases h200
    · intro u heq
      unfold patchRow
      rw [if_pos (by simp [heq])]
      rfl
  · intro c hc
    obtain ⟨c', _, hcl⟩ := List.mem_map.mp hc
    rw [← hcl]
    exact toLower_not_upper c'
  · exact noTag_map_toLower (noTag_prefixClosed (List.take_prefix _ _) (stripTags_noTag _))
  · intro hex
    rw [handlePatch_eq_of_parse hparse, handlePatchWithData_some hdu]
    have htaken : db.users.any (fun u =>
        u.username == (sanitizeInput un).map Char.toLower && !(u.id == uid)) = true := by
      rw [List.any_eq_true]
      obtain ⟨v, hv, hvu, hvid⟩ := hex
      refine ⟨v, hv, ?_⟩
      simp [hvu, hvid]
    rw [if_pos htaken]

/-- Another user row holding the normalized username `ali_ce`. -/
def bobRow : UserRec where
  id := 2
  email := "b@b.com".data
  username := "ali_ce".data
  displayName := "Bob".data
  password := "hash2".data
  avatarUrl := Option.none
  bio := []
  status := UserStatus.online
  isActive := true
  createdAt := 0
  updatedAt := 0
  lastSeen := 0

def dbWithBob : Db where
  users := [aliceRow, bobRow]
  sessions := []
  accounts := []

/-- Closed instance of `handlePatch_username_normalized`: submitting
`Ali_ce` collides with the user already named `ali_ce` (the probe runs on
the normalized value) and the handler answers 400 without writing. -/
theorem handlePatch_username_normalized_witness :
    handlePatch 9 dbWithBob 1
      { displayName := Option.none, username := some ("Ali_ce".data),
        bio := Option.none, status := Option.none } = (400, dbWithBob) := by
  have hsan : (sanitizeInput (trimJS ("Ali_ce".data))).map Char.toLower = "ali_ce".data := by
    simp [sanitizeInput, trimJS, stripScript, stripTags, dropThroughGt, findCloseScript,
      scriptTagAfterLt, startsWithCI, jsIsWs, Char.toLower]
  refine (handlePatch_username_normalized 9 dbWithBob 1
    { displayName := Option.none, username := some ("Ali_ce".data),
      bio := Option.none, status := Option.none }
    { displayName := Option.none, username := some (trimJS ("Ali_ce".data)),
      bio := Option.none, status := Option.none }
    (trimJS ("Ali_ce".data)) rfl rfl).2.2.2 ⟨bobRow, by decide, ?_, by decide⟩
  rw [hsan]
  rfl
